import Mathlib

/-!
Verification of the codereview tool: shallow embedding of the diff-parsing
and review-response pipeline from src/codereview/git_utils.py and
src/codereview/reviewer.py.

Python strings are modelled as `List Char` (named `Str` below); Python
lists as Lean lists; Python dicts as insertion-ordered association lists;
JSON values as the inductive type `JVal` (JSON numbers are modelled as
integers).  Python code that can raise an uncaught exception is modelled
with `Option`/`Except` results.
-/

/-- Python strings, modelled as lists of characters. -/
abbrev Str := List Char

/-- Fuel-indexed worker for Python `str.split(sep)` with a non-empty
separator: scan left to right; at each position, if the separator starts
here, cut and continue after it, otherwise move one character.  The fuel
only has to exceed the length of the input. -/
def pySplitF : Nat → Str → Str → List Str
  | 0, _, s => [s]
  | Nat.succ n, sep, s =>
    if sep ≠ [] ∧ sep.isPrefixOf s then
      [] :: pySplitF n sep (s.drop sep.length)
    else
      match s with
      | [] => [[]]
      | c :: rest =>
        match pySplitF n sep rest with
        | [] => [[c]]
        | a :: as => (c :: a) :: as

/-- Python `s.split(sep)`: left-to-right, non-overlapping splitting on a
non-empty separator.  `"a b/c".split(" b/") == ["a", "c"]`. -/
def pySplit (sep s : Str) : List Str := pySplitF (s.length + 1) sep s

/-- Python `str.strip()`: remove whitespace from both ends. -/
def pyStrip (s : Str) : Str :=
  ((s.dropWhile Char.isWhitespace).reverse.dropWhile Char.isWhitespace).reverse

/-- Python `str.lower()`. -/
def pyLower (s : Str) : Str := s.map Char.toLower

/-- Python `str.rstrip(c)` for a one-character argument: remove every
trailing occurrence of `c`. -/
def pyRstrip (c : Char) (s : Str) : Str :=
  (s.reverse.dropWhile (· = c)).reverse

/-- Python substring containment `sub in s` for a non-empty `sub`,
expressed through the splitter: `sub` occurs in `s` exactly when splitting
on it produces more than one part. -/
def pyContains (sub s : Str) : Bool := (pySplit sub s).length > 1

/- ── git_utils.py ── -/

/-- `DiffHunk` (git_utils.py, lines 12-20): one section of changed code.
`content` is the newline-join of the accumulated raw diff lines. -/
structure DiffHunk where
  file : Str
  old_start : Nat
  new_start : Nat
  content : Str
  added_lines : List Str
  removed_lines : List Str
deriving DecidableEq

/-- The file-header separator literal `" b/"` from parse_diff line 192. -/
def sepB : Str := " b/".data

/-- `_finalize_hunk` (git_utils.py, lines 140-166): build a DiffHunk from
the accumulators; `None` unless the file name is set and truthy (non-empty)
and the content accumulator is non-empty (`if file and content`). -/
def finalize_hunk (file : Option Str) (content added removed : List Str) :
    Option DiffHunk :=
  match file with
  | some f =>
    if f ≠ [] ∧ content ≠ [] then
      some { file := f, old_start := 0, new_start := 0,
             content := List.intercalate ['\n'] content,
             added_lines := added, removed_lines := removed }
    else none
  | none => none

/-- File-name extraction from a `diff --git` header line (parse_diff,
lines 192-193): `parts = line.split(" b/")`, then the last part if there
is more than one part, else the literal `"unknown"`. -/
def fileNameOfHeader (line : Str) : Str :=
  let parts := pySplit sepB line
  if parts.length > 1 then parts.getLastD [] else "unknown".data

/-- The scanning state of `parse_diff`: emitted hunks plus the current
file name and the three accumulators. -/
structure ParseState where
  hunks : List DiffHunk
  current_file : Option Str
  current_content : List Str
  added : List Str
  removed : List Str

/-- Hunk emission on a file boundary (parse_diff, lines 186-190): the
previous accumulator set is finalized and appended when it yields a
hunk. -/
def emitHunk (st : ParseState) : List DiffHunk :=
  match finalize_hunk st.current_file st.current_content st.added st.removed with
  | some hk => st.hunks ++ [hk]
  | none => st.hunks

/-- One iteration of the `for line in diff_text.split("\n")` loop of
`parse_diff` (git_utils.py, lines 184-206). -/
def parseDiffStep (st : ParseState) (line : Str) : ParseState :=
  if ("diff --git".data).isPrefixOf line then
    { hunks := emitHunk st, current_file := some (fileNameOfHeader line),
      current_content := [], added := [], removed := [] }
  else if ("@@".data).isPrefixOf line then
    { st with current_content := st.current_content ++ [line] }
  else if ("+".data).isPrefixOf line && !(("+++".data).isPrefixOf line) then
    { st with added := st.added ++ [line.drop 1],
              current_content := st.current_content ++ [line] }
  else if ("-".data).isPrefixOf line && !(("---".data).isPrefixOf line) then
    { st with removed := st.removed ++ [line.drop 1],
              current_content := st.current_content ++ [line] }
  else
    { st with current_content := st.current_content ++ [line] }

/-- `parse_diff` (git_utils.py, lines 169-214): split the input on
newlines, scan, and finalize the last accumulator set at end of input
(lines 208-212 repeat the emission step). -/
def parse_diff (diff_text : Str) : List DiffHunk :=
  let st := (List.splitOn '\n' diff_text).foldl parseDiffStep
    { hunks := [], current_file := none, current_content := [],
      added := [], removed := [] }
  emitHunk st

example :
    parse_diff ("diff --git a/a.py b/a.py\n@@ -1 +1 @@\n-old\n+new".data) =
      [{ file := "a.py".data, old_start := 0, new_start := 0,
         content := "@@ -1 +1 @@\n-old\n+new".data,
         added_lines := ["new".data], removed_lines := ["old".data] }] := by decide

example : parse_diff ("".data) = [] := by decide

example : parse_diff ("diff --git a/x b/y".data) = [] := by decide

example :
    parse_diff ("diff --git a/x b/y\n".data) =
      [{ file := "y".data, old_start := 0, new_start := 0, content := [],
         added_lines := [], removed_lines := [] }] := by decide

example :
    fileNameOfHeader ("diff --git a/d b/f.txt b/d b/f.txt".data) =
      "f.txt".data := by decide

/- ── reviewer.py: data model ── -/

/-- JSON values as produced by `json.loads`.  JSON numbers are modelled as
integers (the claims under scrutiny only involve integral numbers). -/
inductive JVal where
  | null : JVal
  | bool : Bool → JVal
  | num : Int → JVal
  | str : Str → JVal
  | arr : List JVal → JVal
  | obj : List (Str × JVal) → JVal

/-- `Severity` (reviewer.py, lines 16-21): the closed enumeration. -/
inductive Severity where
  | critical
  | warning
  | info
  | style
deriving DecidableEq

/-- `Issue` (reviewer.py, lines 24-32). -/
structure Issue where
  severity : Severity
  title : Str
  description : Str
  file : Str
  line : Option Int
  suggestion : Str
deriving DecidableEq

/-- `ReviewResult` (reviewer.py, lines 35-42). -/
structure ReviewResult where
  summary : Str
  issues : List Issue
  score : Int
  files_reviewed : Nat
  lines_reviewed : Nat
deriving DecidableEq

/-- Python dict lookup `d.get(k)` on the association list, with the last
occurrence of a duplicated key winning, as in a dict built by
`json.loads`. -/
def getField (fields : List (Str × JVal)) (k : Str) : Option JVal :=
  fields.foldl (fun acc p => if p.1 = k then some p.2 else acc) none

/-- Python `d.get(k, default)`. -/
def jGet (fields : List (Str × JVal)) (k : Str) (d : JVal) : JVal :=
  (getField fields k).getD d

/-- Python `repr` of a string (single-quoted; escaping is not modelled as
no claim depends on it). -/
def pyQuote (s : Str) : Str := Char.ofNat 39 :: s ++ [Char.ofNat 39]

mutual

/-- Python `repr` of a JSON-decoded value (`None`/`True`/`False`, decimal
integers, quoted strings, bracketed lists, braced dicts). -/
def pyRepr : JVal → Str
  | .null => "None".data
  | .bool b => if b then "True".data else "False".data
  | .num n => (toString n).data
  | .str s => pyQuote s
  | .arr l => '[' :: pyReprList l ++ [']']
  | .obj fs => Char.ofNat 123 :: pyReprFields fs ++ [Char.ofNat 125]

/-- Comma-separated reprs of the elements of a list. -/
def pyReprList : List JVal → Str
  | [] => []
  | [x] => pyRepr x
  | x :: xs => pyRepr x ++ (", ".data) ++ pyReprList xs

/-- Comma-separated `key: value` reprs of the entries of a dict. -/
def pyReprFields : List (Str × JVal) → Str
  | [] => []
  | [(k, v)] => pyQuote k ++ (": ".data) ++ pyRepr v
  | (k, v) :: ps => pyQuote k ++ (": ".data) ++ pyRepr v ++ (", ".data) ++ pyReprFields ps

end

/-- Python `str(v)` for a JSON-decoded value: a string is returned as is,
anything else via its repr. -/
def pyStr (v : JVal) : Str :=
  match v with
  | .str s => s
  | v => pyRepr v

/- ── reviewer.py: response parsing ── -/

/-- `_extract_json_from_response` (reviewer.py, lines 248-255): strip the
raw text, then cut the payload out of a ```json fence, else out of a
plain ``` fence, else return the stripped text unchanged. -/
def extract_json_from_response (raw : Str) : Str :=
  let r := pyStrip raw
  if pyContains ("```json".data) r then
    pyStrip ((pySplit ("```".data) ((pySplit ("```json".data) r).getD 1 [])).headD [])
  else if pyContains ("```".data) r then
    pyStrip ((pySplit ("```".data) ((pySplit ("```".data) r).getD 1 [])).headD [])
  else r

/-- `_parse_severity` (reviewer.py, lines 258-263): `Severity(value.lower()
.strip())` with `ValueError`/`AttributeError` caught and mapped to INFO.
A non-string value raises `AttributeError` at `.lower()`, hence INFO. -/
def parse_severity (v : JVal) : Severity :=
  match v with
  | .str s =>
    let t := pyStrip (pyLower s)
    if t = ("critical".data) then .critical
    else if t = ("warning".data) then .warning
    else if t = ("info".data) then .info
    else if t = ("style".data) then .style
    else .info
  | _ => .info

/-- The `line` field logic of `_parse_issue` (reviewer.py, line 273):
`item.get("line") if isinstance(item.get("line"), int) else None`.
Python booleans are instances of `int` (`True` is the integer 1), so a
boolean is kept as 1 or 0; every other non-integer value becomes `None`. -/
def lineOf (v : Option JVal) : Option Int :=
  match v with
  | some (.num n) => some n
  | some (.bool b) => some (if b then 1 else 0)
  | _ => none

/-- `_parse_issue` (reviewer.py, lines 266-275). -/
def parse_issue (item : List (Str × JVal)) : Issue :=
  { severity := parse_severity (jGet item ("severity".data) (.str ("info".data)))
    title := pyStrip (pyStr (jGet item ("title".data) (.str ("Untitled".data))))
    description := pyStrip (pyStr (jGet item ("description".data) (.str [])))
    file := pyStrip (pyStr (jGet item ("file".data) (.str [])))
    line := lineOf (getField item ("line".data))
    suggestion := pyStrip (pyStr (jGet item ("suggestion".data) (.str []))) }

/-- The score coercion of `parse_review_response` (reviewer.py, line 302):
`max(0, min(10, int(score_raw))) if isinstance(score_raw, (int, float))
else 0`.  Python booleans are instances of `int` and coerce to 1/0. -/
def clampScore (v : JVal) : Int :=
  match v with
  | .num n => max 0 (min 10 n)
  | .bool b => max 0 (min 10 (if b then (1 : Int) else 0))
  | _ => 0

/-- Python iteration `for item in v` over a JSON-decoded value: a list
yields its elements, a string its one-character substrings, a dict its
keys; a number, boolean or `None` is not iterable and raises
`TypeError`. -/
def pyIter (v : JVal) : Option (List JVal) :=
  match v with
  | .arr l => some l
  | .str s => some (s.map (fun c => .str [c]))
  | .obj fs => some (fs.map (fun p => .str p.1))
  | _ => none

/-- The fallback `ReviewResult` built by `parse_review_response` when the
payload is not valid JSON (reviewer.py, lines 286-294). -/
def fallbackResult (raw : Str) : ReviewResult :=
  { summary := "Failed to parse review response.".data
    issues := [{ severity := .info, title := "Raw LLM Output".data,
                 description := raw.take 500, file := [], line := none,
                 suggestion := [] }]
    score := 0
    files_reviewed := 0
    lines_reviewed := 0 }

/-- The `isinstance(item, dict)` filter of the issues comprehension. -/
def isObjFields : JVal → Option (List (Str × JVal))
  | .obj fs => some fs
  | _ => none

/-- `parse_review_response` (reviewer.py, lines 278-308), parameterised by
`loads`, the JSON decoder (Python `json.loads`, where `none` models
`JSONDecodeError`).  The result is `none` when the Python code raises an
uncaught exception: `data.get` on a decoded top-level value that is not a
dict raises `AttributeError`, and iterating a non-iterable `issues` value
raises `TypeError`; only `json.JSONDecodeError` is caught. -/
def parse_review_response (loads : Str → Option JVal) (raw : Str) :
    Option ReviewResult :=
  let cleaned := extract_json_from_response raw
  match loads cleaned with
  | none => some (fallbackResult raw)
  | some data =>
    match data with
    | .obj fields =>
      match pyIter (jGet fields ("issues".data) (.arr [])) with
      | none => none
      | some items =>
        some { summary := pyStrip (pyStr (jGet fields ("summary".data)
                 (.str ("No summary provided.".data))))
               issues := (items.filterMap isObjFields).map parse_issue
               score := clampScore (jGet fields ("score".data) (.num 0))
               files_reviewed := 0
               lines_reviewed := 0 }
    | _ => none

/- ── reviewer.py: LLM call, cache ── -/

/-- The configuration dict as consumed by `_validate_api_config`; a `none`
field models an absent key. -/
structure ApiConfig where
  base_url : Option Str
  model : Option Str
  api_key : Option Str

/-- `_validate_api_config` (reviewer.py, lines 149-160): absent keys are
replaced by defaults, the base URL has trailing slashes stripped, and a
`RuntimeError` is raised when base URL or model is empty. -/
def validate_api_config (config : ApiConfig) : Except Str (Str × Str × Str) :=
  let base_url := pyRstrip '/' (config.base_url.getD ("https://api.openai.com/v1".data))
  let model := config.model.getD ("gpt-3.5-turbo".data)
  let api_key := config.api_key.getD []
  if base_url = [] then .error ("No API base URL configured".data)
  else if model = [] then .error ("No model configured".data)
  else .ok (base_url, model, api_key)

/-- `_get_cache_key` (reviewer.py, lines 141-144) computes the SHA-256 hex
digest of `model + ":" + prompt`; the digest is modelled by its preimage
(deterministic and injective, as the digest is intended to be). -/
def get_cache_key (prompt model : Str) : Str := model ++ (":".data) ++ prompt

/-- `MAX_CACHE_SIZE` (reviewer.py, line 138). -/
def MAX_CACHE_SIZE : Nat := 50

/-- The module-level `_response_cache` dict, modelled in insertion order. -/
abbrev Cache := List (Str × Str)

/-- Membership test `cache_key in _response_cache` plus the read
`_response_cache[cache_key]` (reviewer.py, lines 200-202). -/
def cacheLookup (c : Cache) (k : Str) : Option Str :=
  (c.find? (fun p => p.1 == k)).map (fun p => p.2)

/-- The store with eviction (reviewer.py, lines 220-223): when the cache
is at capacity, `next(iter(_response_cache))` is the oldest-inserted key
and is deleted before the new entry is appended. -/
def cacheInsert (c : Cache) (k v : Str) : Cache :=
  let c' := if MAX_CACHE_SIZE ≤ c.length then c.drop 1 else c
  c' ++ [(k, v)]

instance : DecidableEq (Except Str Str) := fun a b =>
  match a, b with
  | .error x, .error y =>
    if h : x = y then isTrue (by rw [h]) else isFalse (fun he => h (Except.error.inj he))
  | .ok x, .ok y =>
    if h : x = y then isTrue (by rw [h]) else isFalse (fun he => h (Except.ok.inj he))
  | .error _, .ok _ => isFalse (fun he => Except.noConfusion he)
  | .ok _, .error _ => isFalse (fun he => Except.noConfusion he)

/-- The outcome of one `call_llm` invocation: the returned text or raised
error, the cache afterwards, and how many network requests were issued. -/
structure LLMOutcome where
  result : Except Str Str
  cache : Cache
  network_calls : Nat
deriving DecidableEq

/-- `call_llm` (reviewer.py, lines 195-243), with the module-level cache
made an explicit argument and the whole network interaction (the POST of
lines 208-218 together with `_extract_response_text`) abstracted as the
oracle `network`, taking the validated base URL and the prompt to either
the extracted content or a raised `RuntimeError`.  Configuration is
validated first; on a cache hit the cached text is returned with no
network call; on a miss the network result is cached and returned. -/
def call_llm (prompt : Str) (config : ApiConfig) (cache : Cache)
    (network : Str → Str → Except Str Str) : LLMOutcome :=
  match validate_api_config config with
  | .error e => { result := .error e, cache := cache, network_calls := 0 }
  | .ok (base_url, model, _api_key) =>
    let cache_key := get_cache_key prompt model
    match cacheLookup cache cache_key with
    | some content => { result := .ok content, cache := cache, network_calls := 0 }
    | none =>
      match network base_url prompt with
      | .error e => { result := .error e, cache := cache, network_calls := 1 }
      | .ok content =>
        { result := .ok content, cache := cacheInsert cache cache_key content,
          network_calls := 1 }

example :
    parse_review_response
      (fun s => if s = ("[1, 2]".data) then some (.arr [.num 1, .num 2]) else none)
      ("[1, 2]".data) = none := by decide

example :
    (parse_issue [(("line".data), .num (-5))]).line = some (-5) := by decide

example : clampScore (.bool true) = 1 := by decide

example : parse_severity (.str ("  CRITICAL ".data)) = .critical := by decide

example :
    call_llm ("p".data) { base_url := none, model := none, api_key := none } []
      (fun _ _ => .ok ("r".data)) =
      { result := .ok ("r".data),
        cache := [(get_cache_key ("p".data) ("gpt-3.5-turbo".data), "r".data)],
        network_calls := 1 } := by decide

/- ── lemmas about the splitter ── -/

lemma pyIsPre_exists : ∀ (l s : Str), l.isPrefixOf s = true → ∃ t : Str, s = l ++ t := by
  intro l
  induction l with
  | nil => exact fun s _ => ⟨s, rfl⟩
  | cons a l ih =>
    intro s h
    cases s with
    | nil => simp [List.isPrefixOf] at h
    | cons b s' =>
      simp only [List.isPrefixOf, Bool.and_eq_true, beq_iff_eq] at h
      obtain ⟨rfl, h2⟩ := h
      obtain ⟨t, rfl⟩ := ih s' h2
      exact ⟨t, rfl⟩

lemma pyIsPre_append : ∀ (l t : Str), l.isPrefixOf (l ++ t) = true := by
  intro l t
  induction l with
  | nil => simp [List.isPrefixOf]
  | cons a l ih => simp [List.isPrefixOf, ih]

/-- The result of `pySplitF` does not depend on the fuel, as long as the
fuel exceeds the length of the input. -/
lemma pySplitF_fuel (sep : Str) :
    ∀ (n m : Nat) (s : Str), s.length < n → s.length < m →
      pySplitF n sep s = pySplitF m sep s := by
  intro n
  induction n with
  | zero => intro m s hn _; omega
  | succ n ih =>
    intro m s hn hm
    cases m with
    | zero => omega
    | succ m =>
      simp only [pySplitF]
      by_cases hp : sep ≠ [] ∧ sep.isPrefixOf s
      · rw [if_pos hp, if_pos hp]
        obtain ⟨hne, hpre⟩ := hp
        obtain ⟨t, rfl⟩ := pyIsPre_exists _ _ hpre
        have hsep : 1 ≤ sep.length := by
          cases sep with
          | nil => exact absurd rfl hne
          | cons _ _ => simp
        rw [List.drop_left]
        rw [List.length_append] at hn hm
        exact congrArg (List.cons []) (ih m t (by omega) (by omega))
      · rw [if_neg hp, if_neg hp]
        cases s with
        | nil => rfl
        | cons c rest =>
          simp only [List.length_cons] at hn hm
          dsimp only
          rw [ih m rest (by omega) (by omega)]

/-- One unfolding step of `pySplit`. -/
lemma pySplit_step (sep s : Str) :
    pySplit sep s =
      if sep ≠ [] ∧ sep.isPrefixOf s then [] :: pySplit sep (s.drop sep.length)
      else
        match s with
        | [] => [[]]
        | c :: rest =>
          match pySplit sep rest with
          | [] => [[c]]
          | a :: as => (c :: a) :: as := by
  show pySplitF (s.length + 1) sep s = _
  simp only [pySplitF]
  by_cases hp : sep ≠ [] ∧ sep.isPrefixOf s
  · rw [if_pos hp, if_pos hp]
    obtain ⟨hne, hpre⟩ := hp
    obtain ⟨t, rfl⟩ := pyIsPre_exists _ _ hpre
    have hsep : 1 ≤ sep.length := by
      cases sep with
      | nil => exact absurd rfl hne
      | cons _ _ => simp
    rw [List.drop_left]
    refine congrArg (List.cons []) ?_
    apply pySplitF_fuel
    · rw [List.length_append]; omega
    · omega
  · rw [if_neg hp, if_neg hp]
    cases s with
    | nil => rfl
    | cons c rest => rfl

/-- The splitting step when the separator matches at the head. -/
lemma pySplit_pos (sep s : Str) (h1 : sep ≠ []) (h2 : sep.isPrefixOf s = true) :
    pySplit sep s = [] :: pySplit sep (s.drop sep.length) := by
  rw [pySplit_step, if_pos ⟨h1, h2⟩]

/-- The splitting step when the separator does not match at the head. -/
lemma pySplit_cons (sep : Str) (c : Char) (rest : Str) (a : Str) (as : List Str)
    (h : ¬ (sep ≠ [] ∧ sep.isPrefixOf (c :: rest) = true))
    (hr : pySplit sep rest = a :: as) :
    pySplit sep (c :: rest) = (c :: a) :: as := by
  rw [pySplit_step, if_neg h]
  simp only [hr]

/-- Splitting never yields an empty list of parts. -/
lemma pySplit_ne_nil (sep s : Str) : pySplit sep s ≠ [] := by
  rw [pySplit_step]
  by_cases hp : sep ≠ [] ∧ sep.isPrefixOf s
  · rw [if_pos hp]; simp
  · rw [if_neg hp]
    cases s with
    | nil => simp
    | cons c rest =>
      dsimp only
      cases h : pySplit sep rest with
      | nil => simp
      | cons a as => simp

/-- Splitting a string that contains the separator `" b/"` yields at least
two parts, and the last part only depends on what follows the first
separator occurrence. -/
theorem pySplit_append_sepB (u w : Str) :
    2 ≤ (pySplit sepB (u ++ (sepB ++ w))).length ∧
    (pySplit sepB (u ++ (sepB ++ w))).getLast? = (pySplit sepB w).getLast? := by
  have hB : sepB = ' ' :: 'b' :: '/' :: [] := rfl
  match u with
  | [] =>
    rw [List.nil_append, pySplit_pos sepB _ (by decide) (pyIsPre_append _ _),
      List.drop_left]
    cases h : pySplit sepB w with
    | nil => exact absurd h (pySplit_ne_nil _ _)
    | cons a as =>
      refine ⟨by simp, ?_⟩
      rw [List.getLast?_cons_cons]
  | [a] =>
    have hp : ¬ (sepB ≠ [] ∧ sepB.isPrefixOf ([a] ++ (sepB ++ w)) = true) := by
      rintro ⟨-, hpre⟩
      obtain ⟨t, ht⟩ := pyIsPre_exists _ _ hpre
      rw [hB] at ht
      simp only [List.cons_append, List.nil_append, List.cons.injEq] at ht
      exact absurd ht.2.1 (by decide)
    have hrec := pySplit_append_sepB [] w
    rw [List.nil_append] at hrec
    cases hx : pySplit sepB (sepB ++ w) with
    | nil => exact absurd hx (pySplit_ne_nil _ _)
    | cons x xs =>
      rw [hx] at hrec
      have hstep := pySplit_cons sepB a (sepB ++ w) x xs hp hx
      rw [List.singleton_append, hstep]
      obtain ⟨hlen, hlast⟩ := hrec
      refine ⟨by simpa using hlen, ?_⟩
      cases xs with
      | nil => simp at hlen
      | cons y ys =>
        rw [List.getLast?_cons_cons]
        rw [List.getLast?_cons_cons] at hlast
        exact hlast
  | [a, b] =>
    have hp : ¬ (sepB ≠ [] ∧ sepB.isPrefixOf ([a, b] ++ (sepB ++ w)) = true) := by
      rintro ⟨-, hpre⟩
      obtain ⟨t, ht⟩ := pyIsPre_exists _ _ hpre
      rw [hB] at ht
      simp only [List.cons_append, List.nil_append, List.cons.injEq] at ht
      exact absurd ht.2.2.1 (by decide)
    have hrec := pySplit_append_sepB [b] w
    rw [List.singleton_append] at hrec
    cases hx : pySplit sepB (b :: (sepB ++ w)) with
    | nil => exact absurd hx (pySplit_ne_nil _ _)
    | cons x xs =>
      rw [hx] at hrec
      have hstep := pySplit_cons sepB a (b :: (sepB ++ w)) x xs
        (by simpa [List.cons_append] using hp) hx
      rw [List.cons_append, List.singleton_append, hstep]
      obtain ⟨hlen, hlast⟩ := hrec
      refine ⟨by simpa using hlen, ?_⟩
      cases xs with
      | nil => simp at hlen
      | cons y ys =>
        rw [List.getLast?_cons_cons]
        rw [List.getLast?_cons_cons] at hlast
        exact hlast
  | a :: b :: c :: u' =>
    by_cases hpre : sepB.isPrefixOf (a :: b :: c :: (u' ++ (sepB ++ w))) = true
    · obtain ⟨t, ht⟩ := pyIsPre_exists _ _ hpre
      rw [hB] at ht
      simp only [List.cons_append, List.cons.injEq] at ht
      obtain ⟨rfl, rfl, rfl, -⟩ := ht
      have hrec := pySplit_append_sepB u' w
      have hstep := pySplit_pos sepB (' ' :: 'b' :: '/' :: (u' ++ (sepB ++ w)))
        (by decide) hpre
      rw [List.cons_append, List.cons_append, List.cons_append, hstep]
      have hdrop : (' ' :: 'b' :: '/' :: (u' ++ (sepB ++ w))).drop sepB.length =
          u' ++ (sepB ++ w) := rfl
      rw [hdrop]
      obtain ⟨hlen, hlast⟩ := hrec
      cases hx : pySplit sepB (u' ++ (sepB ++ w)) with
      | nil => exact absurd hx (pySplit_ne_nil _ _)
      | cons x xs =>
        rw [hx] at hlen hlast
        refine ⟨by simp, ?_⟩
        cases xs with
        | nil => simp at hlen
        | cons y ys =>
          rw [List.getLast?_cons_cons]
          exact hlast
    · have hp : ¬ (sepB ≠ [] ∧ sepB.isPrefixOf (a :: b :: c :: (u' ++ (sepB ++ w))) = true) := by
        rintro ⟨-, h⟩
        exact hpre h
      have hrec := pySplit_append_sepB (b :: c :: u') w
      rw [List.cons_append, List.cons_append] at hrec
      cases hx : pySplit sepB (b :: c :: (u' ++ (sepB ++ w))) with
      | nil => exact absurd hx (pySplit_ne_nil _ _)
      | cons x xs =>
        rw [hx] at hrec
        have hstep := pySplit_cons sepB a (b :: c :: (u' ++ (sepB ++ w))) x xs hp hx
        rw [List.cons_append, List.cons_append, List.cons_append, hstep]
        obtain ⟨hlen, hlast⟩ := hrec
        refine ⟨by simpa using hlen, ?_⟩
        cases xs with
        | nil => simp at hlen
        | cons y ys =>
          rw [List.getLast?_cons_cons]
          rw [List.getLast?_cons_cons] at hlast
          exact hlast
termination_by u.length

/-- A string with no occurrence of `" b/"` is returned whole by the
splitter, in a single part. -/
lemma pySplit_no_occ (v : Str) (hv : ¬ ∃ a b : Str, v = a ++ sepB ++ b) :
    pySplit sepB v = [v] := by
  induction v with
  | nil => rw [pySplit_step, if_neg (by decide)]
  | cons c rest ih =>
    have hp : ¬ (sepB ≠ [] ∧ sepB.isPrefixOf (c :: rest) = true) := by
      rintro ⟨-, hpre⟩
      obtain ⟨t, ht⟩ := pyIsPre_exists _ _ hpre
      exact hv ⟨[], t, by simpa using ht⟩
    have hrest : pySplit sepB rest = [rest] := by
      apply ih
      rintro ⟨a, b, hab⟩
      exact hv ⟨c :: a, b, by simp [hab]⟩
    exact pySplit_cons sepB c rest rest [] hp hrest

/-- Conversely, a single-part split certifies that the separator does not
occur, which makes the no-occurrence side condition checkable by
evaluation. -/
lemma no_occ_of_single (v : Str) (h : pySplit sepB v = [v]) :
    ¬ ∃ a b : Str, v = a ++ sepB ++ b := by
  rintro ⟨a, b, rfl⟩
  have := (pySplit_append_sepB a b).1
  rw [List.append_assoc] at h
  rw [h] at this
  simp at this

/- ── lemmas about parse_diff ── -/

/-- A hunk produced by finalization carries a non-empty (truthy) file
name. -/
lemma finalize_hunk_file_ne (f : Option Str) (content added removed : List Str)
    (hk : DiffHunk) (h : finalize_hunk f content added removed = some hk) :
    hk.file ≠ [] := by
  cases f with
  | none => simp [finalize_hunk] at h
  | some g =>
    by_cases hc : g ≠ [] ∧ content ≠ []
    · rw [finalize_hunk, if_pos hc] at h
      obtain ⟨rfl⟩ := Option.some.inj h
      exact hc.1
    · rw [finalize_hunk, if_neg hc] at h
      exact absurd h (by simp)

/-- Finalization emits a hunk exactly when the current file name is set
and truthy and the content accumulator is non-empty. -/
lemma finalize_hunk_isSome (f : Option Str) (content added removed : List Str) :
    (finalize_hunk f content added removed).isSome = true ↔
      ((∃ g, f = some g ∧ g ≠ []) ∧ content ≠ []) := by
  cases f with
  | none => simp [finalize_hunk]
  | some g =>
    by_cases hc : g ≠ [] ∧ content ≠ []
    · rw [finalize_hunk, if_pos hc]
      simp only [Option.isSome_some, true_iff]
      exact ⟨⟨g, rfl, hc.1⟩, hc.2⟩
    · rw [finalize_hunk, if_neg hc]
      simp only [Option.isSome_none, Bool.false_eq_true, false_iff]
      rintro ⟨⟨g2, hg2, hne⟩, hcont⟩
      obtain ⟨rfl⟩ := Option.some.inj hg2
      exact hc ⟨hne, hcont⟩

/-- Membership in the emitted-hunk list after an emission step. -/
lemma emitHunk_mem (st : ParseState) (hk : DiffHunk)
    (hmem : hk ∈ emitHunk st) :
    hk ∈ st.hunks ∨
      finalize_hunk st.current_file st.current_content st.added st.removed = some hk := by
  unfold emitHunk at hmem
  revert hmem
  cases hf : finalize_hunk st.current_file st.current_content st.added st.removed with
  | none =>
    exact fun hmem => Or.inl hmem
  | some hk0 =>
    intro hmem
    simp only [List.mem_append, List.mem_singleton] at hmem
    cases hmem with
    | inl hm => exact Or.inl hm
    | inr hm => exact Or.inr (by rw [hm])

/-- Any hunk present after one scanning step was already present or was
just emitted by finalization of the accumulators. -/
lemma parseDiffStep_hunks (st : ParseState) (line : Str) (hk : DiffHunk)
    (hmem : hk ∈ (parseDiffStep st line).hunks) :
    hk ∈ st.hunks ∨
      finalize_hunk st.current_file st.current_content st.added st.removed = some hk := by
  unfold parseDiffStep at hmem
  by_cases hd : ("diff --git".data).isPrefixOf line = true
  · rw [if_pos hd] at hmem
    exact emitHunk_mem st hk hmem
  · rw [if_neg hd] at hmem
    split_ifs at hmem <;> exact Or.inl hmem

/-- A scanning step on a line that does not start a new file leaves the
emitted hunks and the current file name unchanged. -/
lemma parseDiffStep_no_header (st : ParseState) (line : Str)
    (h : ("diff --git".data).isPrefixOf line = false) :
    (parseDiffStep st line).hunks = st.hunks ∧
    (parseDiffStep st line).current_file = st.current_file := by
  unfold parseDiffStep
  rw [if_neg (by simp [h])]
  split_ifs <;> exact ⟨rfl, rfl⟩

/-- A scanning step on a header line records the extracted file name. -/
lemma parseDiffStep_header (st : ParseState) (line : Str)
    (h : ("diff --git".data).isPrefixOf line = true) :
    (parseDiffStep st line).current_file = some (fileNameOfHeader line) := by
  unfold parseDiffStep
  rw [if_pos h]

/-- The scan preserves the invariant that every emitted hunk has a
non-empty file name. -/
lemma parse_diff_hunks_inv (lines : List Str) (st : ParseState)
    (h : ∀ hk ∈ st.hunks, hk.file ≠ []) :
    ∀ hk ∈ (lines.foldl parseDiffStep st).hunks, hk.file ≠ [] := by
  induction lines generalizing st with
  | nil => exact h
  | cons l ls ih =>
    simp only [List.foldl_cons]
    apply ih
    intro hk hmem
    cases parseDiffStep_hunks st l hk hmem with
    | inl hm => exact h hk hm
    | inr hm => exact finalize_hunk_file_ne _ _ _ _ _ hm

/-- Scanning lines none of which starts a file keeps the state free of
hunks and of a current file name. -/
lemma parse_diff_nohdr_inv (lines : List Str) (st : ParseState)
    (hl : ∀ l ∈ lines, ("diff --git".data).isPrefixOf l = false)
    (h : st.hunks = [] ∧ st.current_file = none) :
    (lines.foldl parseDiffStep st).hunks = [] ∧
    (lines.foldl parseDiffStep st).current_file = none := by
  induction lines generalizing st with
  | nil => exact h
  | cons l ls ih =>
    simp only [List.foldl_cons]
    apply ih
    · intro x hx
      exact hl x (List.mem_cons_of_mem _ hx)
    · have hstep := parseDiffStep_no_header st l (hl l (List.mem_cons_self _ _))
      exact ⟨hstep.1.trans h.1, hstep.2.trans h.2⟩

/- ── lemmas about the cache ── -/

/-- Inserting a key that was absent makes it found afterwards, eviction
notwithstanding. -/
lemma cacheLookup_insert (c : Cache) (k v : Str)
    (h : cacheLookup c k = none) :
    cacheLookup (cacheInsert c k v) k = some v := by
  unfold cacheLookup at h ⊢
  unfold cacheInsert
  have hf : c.find? (fun p => p.1 == k) = none := by
    cases hx : c.find? (fun p => p.1 == k) with
    | none => rfl
    | some p => rw [hx] at h; simp at h
  have hf2 : (if MAX_CACHE_SIZE ≤ c.length then c.drop 1 else c).find?
      (fun p => p.1 == k) = none := by
    split_ifs
    · rw [List.find?_eq_none] at hf ⊢
      intro x hx
      exact hf x ((List.drop_sublist _ _).mem hx)
    · exact hf
  rw [List.find?_append, hf2]
  simp

/- ── the claims ── -/

/-- C1 counterexample: the claim "parse_review_response never fails on any
malformed input, including JSON whose top-level value is not an object" is
false: on the reply `[1, 2]` the decoder succeeds with a top-level list,
and `data.get("issues", [])` then raises an uncaught `AttributeError`
(modelled as the `none` outcome). -/
theorem parse_review_response_nonobject_crash :
    parse_review_response
      (fun s => if s = ("[1, 2]".data) then some (.arr [.num 1, .num 2]) else none)
      ("[1, 2]".data) = none := by decide

/-- C1 (amended): parse_review_response degrades gracefully to the fixed
fallback ReviewResult whenever the extracted payload is not valid JSON,
and returns a ReviewResult for every decoded top-level object whose
issues value is iterable; but a decoded top-level non-object, or a
non-iterable issues value, raises an uncaught error. -/
theorem parse_review_response_graceful (loads : Str → Option JVal) (raw : Str) :
    (loads (extract_json_from_response raw) = none →
      parse_review_response loads raw = some (fallbackResult raw)) ∧
    (∀ fields items, loads (extract_json_from_response raw) = some (.obj fields) →
      pyIter (jGet fields ("issues".data) (.arr [])) = some items →
      (parse_review_response loads raw).isSome = true) := by
  constructor
  · intro h
    simp only [parse_review_response, h]
  · intro fields items h1 h2
    simp only [parse_review_response, h1, h2, Option.isSome_some]

/-- C1 witness: a reply that is not JSON at all produces the fallback
result rather than an error. -/
theorem parse_review_response_graceful_witness :
    parse_review_response (fun _ => none) ("not json".data) =
      some (fallbackResult ("not json".data)) :=
  (parse_review_response_graceful (fun _ => none) ("not json".data)).1 rfl

/-- C2 counterexample: the claim "a missing base URL or model name fails
fast before any network call" is false: with both keys absent,
`_validate_api_config` substitutes the documented defaults and `call_llm`
proceeds to issue one network call and succeed. -/
theorem call_llm_missing_keys_no_failfast :
    call_llm ("p".data) { base_url := none, model := none, api_key := none } []
      (fun _ _ => .ok ("r".data)) =
      { result := .ok ("r".data),
        cache := [(get_cache_key ("p".data) ("gpt-3.5-turbo".data), "r".data)],
        network_calls := 1 } := by decide

/-- C2 (amended): when the base URL or the model name is present but
empty (the base URL counting as empty once trailing slashes are
stripped), `call_llm` fails fast with a configuration error, zero network
calls, and an unchanged cache; an absent key is instead replaced by a
default. -/
theorem call_llm_empty_config_fails_fast (prompt : Str) (config : ApiConfig)
    (cache : Cache) (network : Str → Str → Except Str Str)
    (h : (∃ b, config.base_url = some b ∧ pyRstrip '/' b = []) ∨
      config.model = some []) :
    ∃ e, call_llm prompt config cache network =
      { result := .error e, cache := cache, network_calls := 0 } := by
  have hval : ∃ e, validate_api_config config = .error e := by
    rcases h with ⟨b, hb, hb2⟩ | hm
    · refine ⟨("No API base URL configured".data), ?_⟩
      simp [validate_api_config, hb, hb2]
    · by_cases hbase :
        pyRstrip '/' (config.base_url.getD ("https://api.openai.com/v1".data)) = []
      · refine ⟨("No API base URL configured".data), ?_⟩
        simp [validate_api_config, hbase]
      · refine ⟨("No model configured".data), ?_⟩
        simp [validate_api_config, hbase, hm]
  obtain ⟨e, he⟩ := hval
  exact ⟨e, by simp [call_llm, he]⟩

/-- C2 witness: an explicitly empty base URL is rejected with no network
call. -/
theorem call_llm_empty_config_fails_fast_witness :
    ∃ e, call_llm ("p".data)
      { base_url := some [], model := some ("m".data), api_key := none } []
      (fun _ _ => .ok ("r".data)) =
      { result := .error e, cache := [], network_calls := 0 } :=
  call_llm_empty_config_fails_fast _ _ _ _ (Or.inl ⟨[], rfl, rfl⟩)

/-- C3 counterexample: the claim "the resulting line field is an optional
positive integer" is false: the integer `-5` is kept as is. -/
theorem parse_issue_line_negative :
    (parse_issue [(("line".data), JVal.num (-5))]).line = some (-5) ∧
    ¬ (0 < (-5 : Int)) := by decide

/-- C3 (amended): the line field is an optional integer: integer values
are kept whatever their sign, booleans are kept as the integers 1/0
(Python treats bool as a subtype of int), any other non-integer value is
discarded (treated as absent) without failure, and numeric coercion from
strings is never attempted. -/
theorem parse_issue_line_int :
    (∀ fs : List (Str × JVal),
      (parse_issue fs).line = lineOf (getField fs ("line".data))) ∧
    (∀ n : Int, lineOf (some (.num n)) = some n) ∧
    (∀ b : Bool, lineOf (some (.bool b)) = some (if b then 1 else 0)) ∧
    (∀ s : Str, lineOf (some (.str s)) = none) ∧
    lineOf (some .null) = none ∧
    (∀ l, lineOf (some (.arr l)) = none) ∧
    (∀ fs, lineOf (some (.obj fs)) = none) ∧
    lineOf none = none := by
  exact ⟨fun fs => rfl, fun n => rfl, fun b => rfl, fun s => rfl, rfl,
    fun l => rfl, fun fs => rfl, rfl⟩

/-- C4 counterexample: the claim "every returned hunk has a file name and
non-empty content" is false for the content field: a header line followed
by a trailing newline yields one accumulated empty line, so a hunk is
emitted whose newline-joined content string is empty. -/
theorem parse_diff_empty_content_hunk :
    ¬ (∀ hk ∈ parse_diff ("diff --git a/x b/y\n".data), hk.content ≠ []) := by
  decide

/-- C4 (amended): a DiffHunk is emitted only when a current file name is
set (hence at least one diff --git boundary has been seen) and truthy and
the content line accumulator is non-empty — so every returned hunk has a
non-empty file name, and a header with no following line (not even an
empty one produced by a trailing newline) is never emitted; the joined
content string may however be empty when the only accumulated line is
empty. -/
theorem parse_diff_hunk_emission :
    (∀ (d : Str), ∀ hk ∈ parse_diff d, hk.file ≠ []) ∧
    (∀ (f : Option Str) (content added removed : List Str),
      (finalize_hunk f content added removed).isSome = true ↔
        ((∃ g, f = some g ∧ g ≠ []) ∧ content ≠ [])) := by
  constructor
  · intro d hk hmem
    simp only [parse_diff] at hmem
    have hinv := parse_diff_hunks_inv (List.splitOn '\n' d)
      { hunks := [], current_file := none, current_content := [],
        added := [], removed := [] }
      (by intro x hx; simp at hx)
    cases emitHunk_mem _ hk hmem with
    | inl hm => exact hinv hk hm
    | inr hm => exact finalize_hunk_file_ne _ _ _ _ _ hm
  · exact finalize_hunk_isSome

/-- C4 witness: the hunk parsed from a one-file diff is in the output and
has a non-empty file name, and finalization with a set file name and
non-empty accumulator does emit. -/
theorem parse_diff_hunk_emission_witness :
    ({ file := "y".data, old_start := 0, new_start := 0, content := [],
       added_lines := [], removed_lines := [] } : DiffHunk) ∈
      parse_diff ("diff --git a/x b/y\n".data) ∧
    ({ file := "y".data, old_start := 0, new_start := 0, content := [],
       added_lines := [], removed_lines := [] } : DiffHunk).file ≠ [] ∧
    (finalize_hunk (some ("y".data)) [[]] [] []).isSome = true :=
  ⟨by decide,
   parse_diff_hunk_emission.1 ("diff --git a/x b/y\n".data) _ (by decide),
   (parse_diff_hunk_emission.2 (some ("y".data)) [[]] [] []).mpr
     ⟨⟨"y".data, rfl, by decide⟩, by decide⟩⟩

/-- C5: at capacity (50 entries), inserting evicts exactly the single
oldest-inserted entry — the result is the 49 younger entries followed by
the new one — and the size stays at 50; below or at capacity the cache
never grows beyond 50 entries. -/
theorem cache_insert_eviction (c : Cache) (k v : Str) :
    (c.length = MAX_CACHE_SIZE →
      cacheInsert c k v = c.drop 1 ++ [(k, v)] ∧
      (cacheInsert c k v).length = MAX_CACHE_SIZE) ∧
    (c.length ≤ MAX_CACHE_SIZE → (cacheInsert c k v).length ≤ MAX_CACHE_SIZE) := by
  constructor
  · intro h
    unfold cacheInsert
    rw [if_pos h.ge]
    refine ⟨rfl, ?_⟩
    simp only [List.length_append, List.length_drop, List.length_cons,
      List.length_nil]
    unfold MAX_CACHE_SIZE at h ⊢
    omega
  · intro h
    unfold cacheInsert
    unfold MAX_CACHE_SIZE at h ⊢
    split_ifs with hc
    · simp only [List.length_append, List.length_drop, List.length_cons,
        List.length_nil]
      omega
    · simp only [List.length_append, List.length_cons, List.length_nil]
      omega

/-- C5 witness: a concrete cache of 50 entries, instantiating the
eviction equation. -/
theorem cache_insert_eviction_witness :
    cacheInsert (List.replicate 50 (("k".data : Str), ("v".data : Str)))
        ("k2".data) ("v2".data) =
      (List.replicate 50 (("k".data : Str), ("v".data : Str))).drop 1 ++
        [(("k2".data : Str), ("v2".data : Str))] ∧
    (cacheInsert (List.replicate 50 (("k".data : Str), ("v".data : Str)))
        ("k2".data) ("v2".data)).length = MAX_CACHE_SIZE :=
  (cache_insert_eviction _ _ _).1 (by decide)

/-- C6: with a valid configuration, a warm cache makes `call_llm` return
the cached raw text with zero network calls and an unchanged cache; and
after any successful call, repeating the identical prompt and
configuration issues zero additional network calls and returns the same
text. -/
theorem call_llm_warm_cache (prompt : Str) (config : ApiConfig) (cache : Cache)
    (network : Str → Str → Except Str Str) (b m a : Str)
    (hval : validate_api_config config = .ok (b, m, a)) :
    (∀ content, cacheLookup cache (get_cache_key prompt m) = some content →
      call_llm prompt config cache network =
        { result := .ok content, cache := cache, network_calls := 0 }) ∧
    (∀ content, (call_llm prompt config cache network).result = .ok content →
      call_llm prompt config (call_llm prompt config cache network).cache network =
        { result := .ok content,
          cache := (call_llm prompt config cache network).cache,
          network_calls := 0 }) := by
  constructor
  · intro content h
    simp [call_llm, hval, h]
  · intro content h
    cases hl : cacheLookup cache (get_cache_key prompt m) with
    | some c0 =>
      have h1 : call_llm prompt config cache network =
          { result := .ok c0, cache := cache, network_calls := 0 } := by
        simp [call_llm, hval, hl]
      rw [h1] at h ⊢
      simp only [Except.ok.injEq] at h
      subst h
      simp [call_llm, hval, hl]
    | none =>
      cases hn : network b prompt with
      | error e =>
        have h1 : call_llm prompt config cache network =
            { result := .error e, cache := cache, network_calls := 1 } := by
          simp [call_llm, hval, hl, hn]
        rw [h1] at h
        simp at h
      | ok c0 =>
        have h1 : call_llm prompt config cache network =
            { result := .ok c0,
              cache := cacheInsert cache (get_cache_key prompt m) c0,
              network_calls := 1 } := by
          simp [call_llm, hval, hl, hn]
        rw [h1] at h ⊢
        simp only [Except.ok.injEq] at h
        subst h
        have hl2 := cacheLookup_insert cache (get_cache_key prompt m) c0 hl
        simp [call_llm, hval, hl2]

/-- C6 witness: with a warm cache and a network that would fail, the
cached text is returned with zero network calls. -/
theorem call_llm_warm_cache_witness :
    call_llm ("p".data) { base_url := none, model := none, api_key := none }
      [(get_cache_key ("p".data) ("gpt-3.5-turbo".data), "r".data)]
      (fun _ _ => .error ("down".data)) =
      { result := .ok ("r".data),
        cache := [(get_cache_key ("p".data) ("gpt-3.5-turbo".data), "r".data)],
        network_calls := 0 } :=
  (call_llm_warm_cache ("p".data)
    { base_url := none, model := none, api_key := none }
    [(get_cache_key ("p".data) ("gpt-3.5-turbo".data), "r".data)]
    (fun _ _ => .error ("down".data))
    ("https://api.openai.com/v1".data) ("gpt-3.5-turbo".data) [] rfl).1
    ("r".data) (by decide)

/-- C7 counterexample: the claim "any non-numeric value yields 0" is
false for booleans: the JSON value `true` is a Python `bool`, which is an
instance of `int`, so it is clamped to the score 1, not 0. -/
theorem clampScore_bool_true : clampScore (.bool true) = 1 ∧ (1 : Int) ≠ 0 := by
  decide

/-- C7 (amended): a numeric score is coerced to an integer and clamped
into [0, 10]; booleans count as numeric (Python bool is an int) and clamp
to 1/0; every other non-numeric value yields 0; in particular -5, 0, 7,
15 and "abc" map to 0, 0, 7, 10, 0. -/
theorem clampScore_spec :
    (∀ n : Int, clampScore (.num n) = max 0 (min 10 n)) ∧
    (∀ b : Bool, clampScore (.bool b) = if b then 1 else 0) ∧
    (∀ s : Str, clampScore (.str s) = 0) ∧
    clampScore .null = 0 ∧
    (∀ l, clampScore (.arr l) = 0) ∧
    (∀ fs, clampScore (.obj fs) = 0) ∧
    clampScore (.num (-5)) = 0 ∧ clampScore (.num 0) = 0 ∧
    clampScore (.num 7) = 7 ∧ clampScore (.num 15) = 10 ∧
    clampScore (.str ("abc".data)) = 0 := by
  refine ⟨fun n => rfl, fun b => ?_, fun s => rfl, rfl, fun l => rfl, fun fs => rfl,
    by decide, by decide, by decide, by decide, rfl⟩
  cases b <;> decide

/-- C8: severity parsing is total over the closed enumeration: the string
is looked up case-insensitively after trimming; any string matching none
of critical/warning/style (case-insensitively after trimming) yields
info, any non-string value yields info, and a missing value yields info
— never a rejection. -/
theorem parse_severity_total :
    (∀ s : Str,
      pyStrip (pyLower s) ≠ ("critical".data) →
      pyStrip (pyLower s) ≠ ("warning".data) →
      pyStrip (pyLower s) ≠ ("style".data) →
      parse_severity (.str s) = .info) ∧
    (∀ v : JVal, (∀ s : Str, v ≠ .str s) → parse_severity v = .info) ∧
    (∀ fs : List (Str × JVal), getField fs ("severity".data) = none →
      (parse_issue fs).severity = .info) ∧
    parse_severity (.str ("critical".data)) = .critical ∧
    parse_severity (.str ("warning".data)) = .warning ∧
    parse_severity (.str ("info".data)) = .info ∧
    parse_severity (.str ("style".data)) = .style ∧
    parse_severity (.str ("  CRITICAL ".data)) = .critical ∧
    parse_severity (.str ("Unknown".data)) = .info ∧
    parse_severity (.num 3) = .info ∧
    parse_severity .null = .info := by
  refine ⟨?_, ?_, ?_, by decide, by decide, by decide, by decide, by decide,
    by decide, rfl, rfl⟩
  · intro s h1 h2 h3
    show (if pyStrip (pyLower s) = ("critical".data) then Severity.critical
      else if pyStrip (pyLower s) = ("warning".data) then Severity.warning
      else if pyStrip (pyLower s) = ("info".data) then Severity.info
      else if pyStrip (pyLower s) = ("style".data) then Severity.style
      else Severity.info) = Severity.info
    rw [if_neg h1, if_neg h2]
    by_cases hi : pyStrip (pyLower s) = ("info".data)
    · rw [if_pos hi]
    · rw [if_neg hi, if_neg h3]
  · intro v hv
    cases v with
    | str s => exact absurd rfl (hv s)
    | null => rfl
    | bool b => rfl
    | num n => rfl
    | arr l => rfl
    | obj fs => rfl
  · intro fs h
    simp only [parse_issue, jGet, h, Option.getD_none]
    decide

/-- C8 witness: an unrecognized string, a non-string value and a missing
value all parse to info. -/
theorem parse_severity_total_witness :
    parse_severity (.str ("Unknown".data)) = .info ∧
    parse_severity (.num 3) = .info ∧
    (parse_issue []).severity = .info :=
  ⟨parse_severity_total.1 ("Unknown".data) (by decide) (by decide) (by decide),
   parse_severity_total.2.1 (.num 3) (fun s h => JVal.noConfusion h),
   parse_severity_total.2.2.1 [] rfl⟩

/-- C9: when no line of the diff text starts with `diff --git`,
parse_diff returns the empty sequence. -/
theorem parse_diff_no_marker (d : Str)
    (h : ∀ l ∈ List.splitOn '\n' d, ("diff --git".data).isPrefixOf l = false) :
    parse_diff d = [] := by
  have hinv := parse_diff_nohdr_inv (List.splitOn '\n' d)
    { hunks := [], current_file := none, current_content := [],
      added := [], removed := [] }
    h ⟨rfl, rfl⟩
  simp only [parse_diff]
  unfold emitHunk
  rw [hinv.2]
  simp only [finalize_hunk]
  exact hinv.1

/-- C9 witness: the empty input yields the empty sequence. -/
theorem parse_diff_no_marker_witness : parse_diff ([] : Str) = [] :=
  parse_diff_no_marker [] (by decide)

/-- C10: when a header line is of the form `u ++ " b/" ++ v` with no
further occurrence of `" b/"` in `v` — in particular when the line
contains the separator more than once — the extracted file name is the
suffix after the last occurrence, and this is exactly the name parse_diff
records for the following hunk. -/
theorem parse_diff_filename_last_sep (u v : Str)
    (hv : ¬ ∃ a b : Str, v = a ++ sepB ++ b) :
    fileNameOfHeader (u ++ sepB ++ v) = v ∧
    (∀ st : ParseState, ∀ line : Str,
      ("diff --git".data).isPrefixOf line = true →
      (parseDiffStep st line).current_file = some (fileNameOfHeader line)) := by
  constructor
  · rw [List.append_assoc]
    obtain ⟨hlen, hlast⟩ := pySplit_append_sepB u v
    rw [pySplit_no_occ v hv] at hlast
    unfold fileNameOfHeader
    rw [if_pos (by omega)]
    rw [List.getLastD_eq_getLast?, hlast]
    rfl
  · intro st line hl
    exact parseDiffStep_header st line hl

/-- C10 witness: a path that itself contains `" b/"` is cut at the last
occurrence. -/
theorem parse_diff_filename_last_sep_witness :
    fileNameOfHeader (("diff --git a/d b/f.txt b/d".data) ++ sepB ++ ("f.txt".data)) =
      ("f.txt".data) ∧
    (parseDiffStep
        { hunks := [], current_file := none, current_content := [],
          added := [], removed := [] }
        ("diff --git a/x b/y".data)).current_file =
      some (fileNameOfHeader ("diff --git a/x b/y".data)) :=
  ⟨(parse_diff_filename_last_sep ("diff --git a/d b/f.txt b/d".data) ("f.txt".data)
      (no_occ_of_single _ (by decide))).1,
   (parse_diff_filename_last_sep [] [] (no_occ_of_single _ (by decide))).2 _ _
     (by decide)⟩
